import Mathlib

/-! JS-File-Server: a shallow embedding of `server.js`.

The server is a single Node.js script.  Its own code is embedded below as pure
Lean functions; everything it imports (the `url`, `path`, `fs` and `mime`
modules, the response writer of `http`) enters either as a field of an
environment record (`Platform`, `Fs`) or as a small executable model
(`Response`, `posix`, `memFs`).  Asynchronous handlers become functions from a
filesystem state to a settled promise (`Except Thrown Outcome`) and the next
filesystem state.
-/

set_option autoImplicit false

namespace FileServer

/-! ## JavaScript values used by the script -/

/-- Bytes travelling through a stream. -/
abbrev Bytes := List UInt8

/-- A JavaScript property that is absent (`undefined`), `null`, or holds a value.
A destructuring default only replaces `undefined`. -/
inductive JsOpt (α : Type) where
  | undefined : JsOpt α
  | null : JsOpt α
  | value (a : α) : JsOpt α
  deriving DecidableEq, Repr

/-- An `Error` instance as Node rejects with: `name`, `message` and, for system
errors, `code`.  Such objects carry no `status` property.  `ownToString` is what
the object's own `toString` method returns when it has one, as the errors Node
raises from its argument checks do; `none` is an object that inherits
`Error.prototype.toString`. -/
structure JsError where
  name : String
  message : String
  code : Option String
  ownToString : Option String := none
  deriving DecidableEq, Repr

/-- `String(error)` for an `Error` instance: its own `toString` when it has one,
`Error.prototype.toString` otherwise. -/
def JsError.toStr (e : JsError) : String :=
  match e.ownToString with
  | some text => text
  | none =>
    if e.name = "" then e.message
    else if e.message = "" then e.name
    else e.name ++ ": " ++ e.message

/-- What a handler puts in `body`: a string, or the readable stream returned by
`createReadStream(path)`. -/
inductive Body where
  | text (s : String) : Body
  | stream (path : String) : Body
  deriving DecidableEq, Repr

/-- The object a handler resolves with: `{body, status, type}`, every property
optional.  `status` is a number or absent; `type` may also be `null`. -/
structure Outcome where
  status : Option Nat := none
  body : Option Body := none
  type : JsOpt String := JsOpt.undefined
  deriving DecidableEq, Repr

/-- A value a handler rejects with: the object literal thrown by `urlPath`, or an
`Error` instance raised by a library call. -/
inductive Thrown where
  | object (o : Outcome) : Thrown
  | error (e : JsError) : Thrown
  deriving DecidableEq, Repr

/-- `error.status` read off a rejected value. -/
def Thrown.status : Thrown → Option Nat
  | Thrown.object o => o.status
  | Thrown.error _ => none

/-- `String(error)` for a rejected value. -/
def Thrown.toStr : Thrown → String
  | Thrown.object _ => "[object Object]"
  | Thrown.error e => e.toStr

deriving instance DecidableEq for Except

/-- The incoming message: method, request target, and the bytes its body stream
delivers. -/
structure Request where
  method : String
  url : String
  body : Bytes
  deriving DecidableEq, Repr

/-- `String.prototype.startsWith`. -/
def startsWith (s pre : String) : Bool :=
  pre.data.isPrefixOf s.data

/-- `String.prototype.slice(1)`. -/
def slice1 (s : String) : String :=
  ⟨s.data.drop 1⟩

/-! ## The imported modules -/

/-- The library functions `urlPath` and `GET` call, and the root directory. -/
structure Platform where
  /-- `parse(url).pathname` of the `url` module: a string or `null`. -/
  parse : String → Except JsError (Option String)
  /-- The global `decodeURIComponent`; throws `URIError` on a malformed escape. -/
  decodeURIComponent : String → Except JsError String
  /-- `path.resolve(a, b)`. -/
  resolve : String → String → String
  /-- `path.sep`. -/
  sep : String
  /-- `path.dirname(process.execPath)`. -/
  baseDirectory : String
  /-- `mime.getType(path)`: a MIME type, or `null` for an unknown extension. -/
  getType : String → Option String

/-- The result of `stat`: only `isDirectory()` is consulted. -/
structure Stats where
  isDirectory : Bool
  deriving DecidableEq, Repr

/-- The `fs` functions the handlers call, over a filesystem state `σ`. -/
structure Fs (σ : Type) where
  stat : String → σ → Except JsError Stats
  readdir : String → σ → Except JsError (List String)
  /-- `createReadStream(path)` drained to its end. -/
  readStream : String → σ → Except JsError Bytes
  rmdir : String → σ → Except JsError Unit × σ
  unlink : String → σ → Except JsError Unit × σ
  /-- `createWriteStream(path)` fed with the given bytes until `finish`. -/
  writeStream : String → Bytes → σ → Except JsError Unit × σ
  mkdir : String → σ → Except JsError Unit × σ

/-! ## The response writer of `http` -/

/-- What has been sent as the response body. -/
inductive Sent where
  | text (s : String) : Sent
  | bytes (b : Bytes) : Sent
  deriving DecidableEq, Repr

/-- The `http.ServerResponse`: `statusCode` starts at 200, headers accumulate,
`body` is filled when the response ends and is `none` while it has not. -/
structure Response where
  statusCode : Nat := 200
  headers : List (String × Option String) := []
  body : Option Sent := none
  deriving DecidableEq, Repr

/-- `response.setHeader(name, value)`. -/
def Response.setHeader (r : Response) (name : String) (value : Option String) : Response :=
  { r with headers := r.headers.filter (fun h => h.1 ≠ name) ++ [(name, value)] }

/-- `response.writeHead(status, {"Content-Type": type})`. -/
def Response.writeHead (r : Response) (status : Nat) (type : Option String) : Response :=
  { r.setHeader "Content-Type" type with statusCode := status }

/-- `response.end(body)`: an absent body sends nothing. -/
def Response.endWith (r : Response) (body : Option String) : Response :=
  { r with body := some (Sent.text (body.getD "")) }

/-- `response.getHeader(name)`. -/
def Response.getHeader (r : Response) (name : String) : Option (Option String) :=
  r.headers.lookup name

/-! ## `server.js` -/

section Script

variable {σ : Type}

/-- A request handler: an `async function(request)`. -/
abbrev Handler (σ : Type) := Request → σ → Except Thrown Outcome × σ

/-- `notAllowed`, the default handler. -/
def notAllowed (request : Request) (s : σ) : Except Thrown Outcome × σ :=
  (Except.ok { status := some 405, body := some (Body.text ("Method " ++ request.method ++ " not allowed.")) }, s)

/-- `urlPath`: the request target turned into a path under `baseDirectory`. -/
def urlPath (P : Platform) (url : String) : Except Thrown String :=
  match P.parse url with
  | Except.error e => Except.error (Thrown.error e)
  | Except.ok parsed =>
    let pathname : Option String := if parsed = some "/" then some "/index.html" else parsed
    match P.decodeURIComponent (pathname.getD "null") with
    | Except.error e => Except.error (Thrown.error e)
    | Except.ok decoded =>
      let decodedPath := slice1 decoded
      let fullPath := P.resolve P.baseDirectory decodedPath
      if !startsWith fullPath (P.baseDirectory ++ P.sep) then
        Except.error (Thrown.object { status := some 403, body := some (Body.text "Forbidden") })
      else
        Except.ok fullPath

/-- `methods.GET`. -/
def GET (P : Platform) (fs : Fs σ) (request : Request) (s : σ) : Except Thrown Outcome × σ :=
  match urlPath P request.url with
  | Except.error t => (Except.error t, s)
  | Except.ok path =>
    match fs.stat path s with
    | Except.error error =>
      if error.code ≠ some "ENOENT" then (Except.error (Thrown.error error), s)
      else (Except.ok { status := some 404, body := some (Body.text "File not found") }, s)
    | Except.ok stats =>
      if stats.isDirectory then
        match fs.readdir path s with
        | Except.error e => (Except.error (Thrown.error e), s)
        | Except.ok names => (Except.ok { body := some (Body.text ("\n".intercalate names)) }, s)
      else
        (Except.ok { body := some (Body.stream path),
                     type := match P.getType path with
                             | none => JsOpt.null
                             | some t => JsOpt.value t }, s)

/-- `methods.DELETE`. -/
def DELETE (P : Platform) (fs : Fs σ) (request : Request) (s : σ) : Except Thrown Outcome × σ :=
  match urlPath P request.url with
  | Except.error t => (Except.error t, s)
  | Except.ok path =>
    match fs.stat path s with
    | Except.error error =>
      if error.code ≠ some "ENOENT" then (Except.error (Thrown.error error), s)
      else (Except.ok { status := some 204 }, s)
    | Except.ok stats =>
      let removed := if stats.isDirectory then fs.rmdir path s else fs.unlink path s
      match removed with
      | (Except.error e, s1) => (Except.error (Thrown.error e), s1)
      | (Except.ok _, s1) => (Except.ok { status := some 204 }, s1)

/-- `pipeStream(from, to)` with `to = createWriteStream(path)`: settles when the
write stream finishes or errors. -/
def pipeStream (fs : Fs σ) (source : Request) (path : String) (s : σ) : Except Thrown Unit × σ :=
  match fs.writeStream path source.body s with
  | (Except.error e, s1) => (Except.error (Thrown.error e), s1)
  | (Except.ok _, s1) => (Except.ok (), s1)

/-- `methods.PUT`. -/
def PUT (P : Platform) (fs : Fs σ) (request : Request) (s : σ) : Except Thrown Outcome × σ :=
  match urlPath P request.url with
  | Except.error t => (Except.error t, s)
  | Except.ok path =>
    match pipeStream fs request path s with
    | (Except.error t, s1) => (Except.error t, s1)
    | (Except.ok _, s1) => (Except.ok { status := some 204 }, s1)

/-- `methods.MKCOL`. -/
def MKCOL (P : Platform) (fs : Fs σ) (request : Request) (s : σ) : Except Thrown Outcome × σ :=
  match urlPath P request.url with
  | Except.error t => (Except.error t, s)
  | Except.ok path =>
    match fs.mkdir path s with
    | (Except.ok _, s1) => (Except.ok { status := some 204 }, s1)
    | (Except.error error, s1) =>
      if error.code = some "EEXIST" then
        (Except.ok { status := some 400, body := some (Body.text "Directory already exists") }, s1)
      else (Except.error (Thrown.error error), s1)

/-- The `methods` object: created with no prototype, then given exactly the four
properties `GET`, `DELETE`, `PUT` and `MKCOL`.  `none` is `undefined`. -/
def methods (P : Platform) (fs : Fs σ) (name : String) : Option (Handler σ) :=
  if name = "GET" then some (GET P fs)
  else if name = "DELETE" then some (DELETE P fs)
  else if name = "PUT" then some (PUT P fs)
  else if name = "MKCOL" then some (MKCOL P fs)
  else none

/-- The `.catch` callback of the request listener. -/
def recover (error : Thrown) : Outcome :=
  match error with
  | Thrown.object o =>
    if o.status ≠ none then o
    else { body := some (Body.text (Thrown.toStr error)), status := some 500 }
  | Thrown.error _ => { body := some (Body.text (Thrown.toStr error)), status := some 500 }

/-- The parameter `type = "text/plain"` of the `.then` callback: the default
replaces `undefined` only, so `null` stays `null` (`none`). -/
def typeOrDefault : JsOpt String → Option String
  | JsOpt.undefined => some "text/plain"
  | JsOpt.null => none
  | JsOpt.value t => some t

/-- The `.then` callback of the request listener: write the head, then pipe a
stream body or end with a plain one.  A piped stream that reads to its end ends
the response; one that fails emits `error` with no listener attached, so nothing
ends the response: the head stays written and the body absent. -/
def writeOutcome (fs : Fs σ) (response : Response) (o : Outcome) (s : σ) : Response :=
  let status := o.status.getD 200
  let type := typeOrDefault o.type
  let response := response.writeHead status type
  match o.body with
  | some (Body.stream path) =>
    match fs.readStream path s with
    | Except.ok b => { response with body := some (Sent.bytes b) }
    | Except.error _ => response
  | some (Body.text t) => response.endWith (some t)
  | none => response.endWith none

/-- `promise.catch(recover)`: the outcome the `.then` callback receives once the
handler has settled. -/
def settle (result : Except Thrown Outcome) : Outcome :=
  match result with
  | Except.error error => recover error
  | Except.ok o => o

/-- The callback passed to `createServer`. -/
def requestListener (P : Platform) (fs : Fs σ) (request : Request) (s : σ) : Response × σ :=
  let response : Response := {}
  let response := response.setHeader "Access-Control-Allow-Origin" (some "*")
  let response := response.setHeader "Access-Control-Allow-Methods" (some "*")
  let response := response.setHeader "Access-Control-Allow-Headers" (some "*")
  if request.method = "OPTIONS" then
    (response.endWith none, s)
  else
    let handler : Handler σ := (methods P fs request.method).getD notAllowed
    let settled := handler request s
    (writeOutcome fs response (settle settled.1) settled.2, settled.2)

end Script

/-! ## An executable POSIX platform -/

namespace Posix

/-- `s.split("/")` on the characters of a path. -/
def splitSlash : List Char → List (List Char)
  | [] => [[]]
  | c :: cs =>
    if c = '/' then [] :: splitSlash cs
    else
      match splitSlash cs with
      | [] => [[c]]
      | seg :: segs => (c :: seg) :: segs

/-- `segs.join("/")`. -/
def joinSlash : List (List Char) → List Char
  | [] => []
  | [seg] => seg
  | seg :: segs => seg ++ '/' :: joinSlash segs

/-- The segment view of `normalizeString` in Node's `path` module: empty and `.`
segments vanish, `..` removes the segment before it (or stays, above a relative
start, when `allowAboveRoot`).  The stack holds the kept segments, last first. -/
def normalizeAux (allowAboveRoot : Bool) : List (List Char) → List (List Char) → List (List Char)
  | stack, [] => stack.reverse
  | stack, seg :: rest =>
    if seg = [] ∨ seg = ['.'] then normalizeAux allowAboveRoot stack rest
    else if seg = ['.', '.'] then
      match stack with
      | [] =>
        if allowAboveRoot then normalizeAux allowAboveRoot [seg] rest
        else normalizeAux allowAboveRoot [] rest
      | top :: below =>
        if top = ['.', '.'] then
          (if allowAboveRoot then normalizeAux allowAboveRoot (seg :: stack) rest
           else normalizeAux allowAboveRoot stack rest)
        else normalizeAux allowAboveRoot below rest
    else normalizeAux allowAboveRoot (seg :: stack) rest

/-- The kept segments of a path string. -/
def normalizeString (path : List Char) (allowAboveRoot : Bool) : List (List Char) :=
  normalizeAux allowAboveRoot [] (splitSlash path)

/-- One turn of the loop of `path.resolve`, which walks its arguments from the
last to the first and stops at the first absolute one. -/
def resolveStep (path : List Char) (acc : List Char × Bool) : List Char × Bool :=
  if acc.2 then acc
  else if path = [] then acc
  else (path ++ '/' :: acc.1, path.head? = some '/')

/-- `path.resolve(a, b)` on POSIX, the process working directory being `cwd`. -/
def resolveChars (cwd a b : List Char) : List Char :=
  let r := resolveStep cwd (resolveStep a (resolveStep b ([], false)))
  let resolvedPath := joinSlash (normalizeString r.1 (!r.2))
  if r.2 then '/' :: resolvedPath
  else if resolvedPath = [] then ['.'] else resolvedPath

/-- `path.resolve(a, b)` on strings. -/
def resolve (cwd a b : String) : String :=
  ⟨resolveChars cwd.data a.data b.data⟩

/-- The pathname `url.parse` reports for a request target in origin form (one
that begins with `/` and names no scheme, user or host): the characters before
the first `?` or `#`, every backslash among them turned into a slash, or `null`
when there are none.  Dot segments are left as they are. -/
def parse (url : String) : Except JsError (Option String) :=
  let pathname := (url.data.takeWhile (fun c => c ≠ '?' ∧ c ≠ '#')).map
    (fun c => if c = '\\' then '/' else c)
  if pathname = [] then Except.ok none else Except.ok (some ⟨pathname⟩)

/-- The value of a hexadecimal digit. -/
def hexDigit (c : Char) : Option Nat :=
  if '0' ≤ c ∧ c ≤ '9' then some (c.toNat - 48)
  else if 'a' ≤ c ∧ c ≤ 'f' then some (c.toNat - 87)
  else if 'A' ≤ c ∧ c ≤ 'F' then some (c.toNat - 55)
  else none

/-- The `URIError` thrown by `decodeURIComponent`. -/
def uriError : JsError :=
  { name := "URIError", message := "URI malformed", code := none }

/-- A UTF-8 sequence under way: continuation bytes still due, the bits read so
far, and the least code point this length may encode. -/
structure Multi where
  remaining : Nat
  acc : Nat
  least : Nat
  deriving DecidableEq, Repr

/-- Where the decoder stands inside an escape. -/
inductive DecodeState where
  | start (m : Option Multi) : DecodeState
  | high (m : Option Multi) : DecodeState
  | low (m : Option Multi) (h : Nat) : DecodeState
  deriving DecidableEq, Repr

/-- Take in the byte of one `%XX` escape. -/
def feedByte (m : Option Multi) (b : Nat) : Except JsError (Option Char × Option Multi) :=
  match m with
  | none =>
    if b < 128 then Except.ok (some (Char.ofNat b), none)
    else if 192 ≤ b ∧ b < 224 then Except.ok (none, some { remaining := 1, acc := b % 32, least := 128 })
    else if 224 ≤ b ∧ b < 240 then Except.ok (none, some { remaining := 2, acc := b % 16, least := 2048 })
    else if 240 ≤ b ∧ b < 248 then Except.ok (none, some { remaining := 3, acc := b % 8, least := 65536 })
    else Except.error uriError
  | some u =>
    if b / 64 = 2 then
      let acc := u.acc * 64 + b % 64
      if u.remaining ≤ 1 then
        if u.least ≤ acc ∧ acc ≤ 1114111 ∧ ¬ (55296 ≤ acc ∧ acc ≤ 57343) then
          Except.ok (some (Char.ofNat acc), none)
        else Except.error uriError
      else Except.ok (none, some { u with remaining := u.remaining - 1, acc := acc })
    else Except.error uriError

/-- The Decode operation of ECMAScript with an empty reserved set, one character
at a time. -/
def decodeAux : DecodeState → List Char → Except JsError (List Char)
  | DecodeState.start none, [] => Except.ok []
  | _, [] => Except.error uriError
  | DecodeState.start m, c :: cs =>
    if c = '%' then decodeAux (DecodeState.high m) cs
    else
      match m with
      | some _ => Except.error uriError
      | none =>
        match decodeAux (DecodeState.start none) cs with
        | Except.ok out => Except.ok (c :: out)
        | Except.error e => Except.error e
  | DecodeState.high m, c :: cs =>
    match hexDigit c with
    | none => Except.error uriError
    | some h => decodeAux (DecodeState.low m h) cs
  | DecodeState.low m h, c :: cs =>
    match hexDigit c with
    | none => Except.error uriError
    | some l =>
      match feedByte m (16 * h + l) with
      | Except.error e => Except.error e
      | Except.ok (emitted, m1) =>
        match decodeAux (DecodeState.start m1) cs with
        | Except.error e => Except.error e
        | Except.ok out =>
          match emitted with
          | some ch => Except.ok (ch :: out)
          | none => Except.ok out

/-- `decodeURIComponent` on strings. -/
def decodeURIComponent (s : String) : Except JsError String :=
  match decodeAux (DecodeState.start none) s.data with
  | Except.ok out => Except.ok ⟨out⟩
  | Except.error e => Except.error e

/-- The characters after the last occurrence of a separator, or all of them. -/
def afterLast (isSep : Char → Bool) (s : List Char) : List Char :=
  (s.reverse.takeWhile (fun c => !isSep c)).reverse

/-- `mime.getType(path)` over the table `types` of the package (`this._types`,
from an extension to its type): the type of the extension of the last path
segment, or `null`.  A last segment without a dot, reached through a directory,
has no extension and is answered `null` whatever the table holds. -/
def getType (types : String → Option String) (path : String) : Option String :=
  let last := (afterLast (fun c => c = '/' ∨ c = '\\') path.data).map Char.toLower
  let ext := afterLast (fun c => c = '.') last
  let hasPath := last.length < path.data.length
  let hasDot := ext.length + 1 < last.length
  if hasDot ∨ ¬ hasPath then types ⟨ext⟩ else none

/-- A segment a normalised path may contain: not empty, not `.` or `..`, and
free of separators. -/
def Clean (seg : List Char) : Prop :=
  seg ≠ [] ∧ seg ≠ ['.'] ∧ seg ≠ ['.', '.'] ∧ '/' ∉ seg

/-- The absolute path made of the given segments. -/
def render (segs : List (List Char)) : List Char :=
  '/' :: joinSlash segs

instance decidableClean (seg : List Char) : Decidable (Clean seg) := by
  unfold Clean
  exact inferInstance

end Posix

/-- Node on a POSIX system, serving `baseDirectory`, the `mime` package holding
the table `types`. -/
def posix (types : String → Option String) (baseDirectory : String) : Platform :=
  { parse := Posix.parse
    decodeURIComponent := Posix.decodeURIComponent
    resolve := Posix.resolve "/"
    sep := "/"
    baseDirectory := baseDirectory
    getType := Posix.getType types }

/-! ## An executable in-memory filesystem -/

namespace MemFs

/-- What a path names: a regular file with its contents, or a directory. -/
inductive Node where
  | file (content : Bytes) : Node
  | dir : Node
  deriving DecidableEq, Repr

/-- The entries below the root directory, keyed by their path segments.  The
root itself, `[]`, is always a directory. -/
abbrev State := List (List String × Node)

/-- Why the lookup of a path fails. -/
inductive Miss where
  | notFound : Miss
  | notDir : Miss
  | nameTooLong : Miss
  deriving DecidableEq, Repr

/-- A system error of `fs`, worded as Node words it: the code, its text, the
system call and the path. -/
def sysError (code text call path : String) : JsError :=
  { name := "Error",
    message := code ++ ": " ++ text ++ ", " ++ call ++ " '" ++ path ++ "'",
    code := some code }

/-- The system error for a failed lookup. -/
def Miss.toError (call path : String) : Miss → JsError
  | Miss.notFound => sysError "ENOENT" "no such file or directory" call path
  | Miss.notDir => sysError "ENOTDIR" "not a directory" call path
  | Miss.nameTooLong => sysError "ENAMETOOLONG" "name too long" call path

/-- The path as the message of an argument error shows it: quoted, a null byte
written out as an escape. -/
def inspect (path : String) : String :=
  "'" ++ String.join (path.data.map (fun c => if c = '\x00' then "\\x00" else String.singleton c))
    ++ "'"

/-- The `TypeError` every `fs` function throws for a path that holds a null
byte.  It comes from Node's argument check and carries its own `toString`. -/
def nullByteError (path : String) : JsError :=
  { name := "TypeError",
    message := "The argument 'path' must be a string, Uint8Array, or URL without null bytes. Received "
      ++ inspect path,
    code := some "ERR_INVALID_ARG_VALUE",
    ownToString := some
      ("TypeError [ERR_INVALID_ARG_VALUE]: The argument 'path' must be a string, Uint8Array, or URL without null bytes. Received "
        ++ inspect path) }

/-- What is wrong with a path before any lookup: a null byte, no characters at
all, or 4096 bytes and more. -/
def pathFault (call path : String) : Option JsError :=
  if '\x00' ∈ path.data then some (nullByteError path)
  else if path = "" then some (sysError "ENOENT" "no such file or directory" call path)
  else if 4096 ≤ path.utf8ByteSize then some (sysError "ENAMETOOLONG" "name too long" call path)
  else none

/-- A name of more than 255 bytes, which no directory can hold. -/
def longName (seg : String) : Bool :=
  255 < seg.utf8ByteSize

/-- The segments a path string walks through, `.` and `..` resolved; a relative
path starts at the root. -/
def segments (path : String) : List String :=
  (Posix.normalizeString path.data false).map String.mk

/-- The entry stored under a key. -/
def lookupEntry : State → List String → Option Node
  | [], _ => none
  | (k, n) :: rest, key => if k = key then some n else lookupEntry rest key

/-- The node at a key; the root needs no entry. -/
def find (s : State) (key : List String) : Option Node :=
  if key = [] then some Node.dir else lookupEntry s key

/-- The state without the entry of a key. -/
def remove (s : State) (key : List String) : State :=
  s.filter (fun e => e.1 ≠ key)

/-- The state with a key bound to a node. -/
def put (s : State) (key : List String) (n : Node) : State :=
  (key, n) :: remove s key

/-- Path lookup as the kernel performs it, one segment at a time: `cur` is the
node reached at `done`; a further segment needs `cur` to be a directory and a
name that directory can hold. -/
def walk (s : State) : Node → List String → List String → Except Miss Node
  | cur, _, [] => Except.ok cur
  | Node.file _, _, _ :: _ => Except.error Miss.notDir
  | Node.dir, done, seg :: todo =>
    if longName seg then Except.error Miss.nameTooLong
    else
      match find s (done ++ [seg]) with
      | none => Except.error Miss.notFound
      | some n => walk s n (done ++ [seg]) todo

/-- The last step of a walk. -/
def lastStep (s : State) (key : List String) (x : String) : Node → Except Miss Node
  | Node.file _ => Except.error Miss.notDir
  | Node.dir =>
    if longName x then Except.error Miss.nameTooLong
    else
      match find s key with
      | none => Except.error Miss.notFound
      | some n => Except.ok n

/-- The node a path string names, from the root. -/
def locate (s : State) (path : String) : Except Miss Node :=
  walk s Node.dir [] (segments path)

/-- The lookup a system call starts with: the argument check, then the walk. -/
def lookup (call path : String) (s : State) : Except JsError Node :=
  match pathFault call path with
  | some e => Except.error e
  | none =>
    match locate s path with
    | Except.error m => Except.error (m.toError call path)
    | Except.ok n => Except.ok n

/-- The names directly inside a directory. -/
def children (s : State) (key : List String) : List String :=
  s.filterMap (fun e => if e.1 ≠ [] ∧ e.1.dropLast = key then e.1.getLast? else none)

/-- `fs.promises.stat`. -/
def stat (path : String) (s : State) : Except JsError Stats :=
  match lookup "stat" path s with
  | Except.error e => Except.error e
  | Except.ok n => Except.ok { isDirectory := n = Node.dir }

/-- `fs.promises.readdir`. -/
def readdir (path : String) (s : State) : Except JsError (List String) :=
  match lookup "scandir" path s with
  | Except.error e => Except.error e
  | Except.ok (Node.file _) => Except.error (sysError "ENOTDIR" "not a directory" "scandir" path)
  | Except.ok Node.dir => Except.ok (children s (segments path))

/-- `createReadStream(path)` read to its end. -/
def readStream (path : String) (s : State) : Except JsError Bytes :=
  match lookup "open" path s with
  | Except.error e => Except.error e
  | Except.ok Node.dir =>
    Except.error { name := "Error", message := "EISDIR: illegal operation on a directory, read",
                   code := some "EISDIR" }
  | Except.ok (Node.file b) => Except.ok b

/-- `fs.promises.rmdir`: removes an empty directory other than the root. -/
def rmdir (path : String) (s : State) : Except JsError Unit × State :=
  match lookup "rmdir" path s with
  | Except.error e => (Except.error e, s)
  | Except.ok (Node.file _) => (Except.error (sysError "ENOTDIR" "not a directory" "rmdir" path), s)
  | Except.ok Node.dir =>
    if segments path = [] then
      (Except.error (sysError "EBUSY" "resource busy or locked" "rmdir" path), s)
    else if children s (segments path) ≠ [] then
      (Except.error (sysError "ENOTEMPTY" "directory not empty" "rmdir" path), s)
    else (Except.ok (), remove s (segments path))

/-- `fs.promises.unlink`: removes a file. -/
def unlink (path : String) (s : State) : Except JsError Unit × State :=
  match lookup "unlink" path s with
  | Except.error e => (Except.error e, s)
  | Except.ok Node.dir =>
    (Except.error (sysError "EISDIR" "illegal operation on a directory" "unlink" path), s)
  | Except.ok (Node.file _) => (Except.ok (), remove s (segments path))

/-- The directory a new entry goes into and the name it gets: the walk to the
parent of the path, then the check of the last segment.  `none` is the root,
which has no parent. -/
def parentOf (call path : String) (s : State) : Except JsError (Option String) :=
  match pathFault call path with
  | some e => Except.error e
  | none =>
    match walk s Node.dir [] (segments path).dropLast with
    | Except.error m => Except.error (m.toError call path)
    | Except.ok (Node.file _) => Except.error (sysError "ENOTDIR" "not a directory" call path)
    | Except.ok Node.dir =>
      match (segments path).getLast? with
      | none => Except.ok none
      | some last =>
        if longName last then Except.error (sysError "ENAMETOOLONG" "name too long" call path)
        else Except.ok (some last)

/-- `createWriteStream(path)` written to its `finish`: the file is created or
truncated inside an existing directory, then filled. -/
def writeStream (path : String) (b : Bytes) (s : State) : Except JsError Unit × State :=
  match parentOf "open" path s with
  | Except.error e => (Except.error e, s)
  | Except.ok none =>
    (Except.error (sysError "EISDIR" "illegal operation on a directory" "open" path), s)
  | Except.ok (some _) =>
    match find s (segments path) with
    | some Node.dir =>
      (Except.error (sysError "EISDIR" "illegal operation on a directory" "open" path), s)
    | _ => (Except.ok (), put s (segments path) (Node.file b))

/-- `fs.promises.mkdir`, not recursive. -/
def mkdir (path : String) (s : State) : Except JsError Unit × State :=
  match parentOf "mkdir" path s with
  | Except.error e => (Except.error e, s)
  | Except.ok none => (Except.error (sysError "EEXIST" "file already exists" "mkdir" path), s)
  | Except.ok (some _) =>
    match find s (segments path) with
    | some _ => (Except.error (sysError "EEXIST" "file already exists" "mkdir" path), s)
    | none => (Except.ok (), put s (segments path) Node.dir)

end MemFs

/-- The in-memory filesystem as an `Fs`. -/
def memFs : Fs MemFs.State :=
  { stat := MemFs.stat
    readdir := MemFs.readdir
    readStream := MemFs.readStream
    rmdir := MemFs.rmdir
    unlink := MemFs.unlink
    writeStream := MemFs.writeStream
    mkdir := MemFs.mkdir }

/-! ## Vocabulary of the statements -/

/-- The rejection `urlPath` throws. -/
def forbidden : Thrown :=
  Thrown.object { status := some 403, body := some (Body.text "Forbidden") }

/-- The string `urlPath` hands to `decodeURIComponent`. -/
def pathnameOf (parsed : Option String) : String :=
  (if parsed = some "/" then some "/index.html" else parsed).getD "null"

/-- The facts about `fs` the round trips rest on: a finished write leaves a
regular file holding the written bytes, and a removed path is reported as not
found. -/
structure Fs.Lawful {σ : Type} (fs : Fs σ) : Prop where
  write_read : ∀ (path : String) (b : Bytes) (s s1 : σ),
    fs.writeStream path b s = (Except.ok (), s1) →
      fs.stat path s1 = Except.ok { isDirectory := false } ∧ fs.readStream path s1 = Except.ok b
  unlink_gone : ∀ (path : String) (s s1 : σ),
    fs.unlink path s = (Except.ok (), s1) →
      ∃ e, fs.stat path s1 = Except.error e ∧ e.code = some "ENOENT"
  rmdir_gone : ∀ (path : String) (s s1 : σ),
    fs.rmdir path s = (Except.ok (), s1) →
      ∃ e, fs.stat path s1 = Except.error e ∧ e.code = some "ENOENT"

/-- The three headers set on every response. -/
def corsHeaders : List (String × Option String) :=
  [("Access-Control-Allow-Origin", some "*"),
   ("Access-Control-Allow-Methods", some "*"),
   ("Access-Control-Allow-Headers", some "*")]

/-- The response holding the three headers, its head not yet written. -/
def corsResponse : Response :=
  { headers := corsHeaders }

/-- A finished response: status, `Content-Type` and what was sent. -/
def finished (status : Nat) (type : Option String) (sent : Sent) : Response :=
  { statusCode := status, headers := corsHeaders ++ [("Content-Type", type)], body := some sent }

/-- The platform runs the POSIX `path` module. -/
def Platform.IsPosix (P : Platform) : Prop :=
  P.sep = "/" ∧ ∃ cwd, P.resolve = Posix.resolve cwd

/-- The string is the normalised absolute path made of the given segments. -/
def Posix.IsPath (p : String) (segs : List (List Char)) : Prop :=
  (∀ seg ∈ segs, Posix.Clean seg) ∧ p.data = Posix.render segs

instance Posix.decidableIsPath (p : String) (segs : List (List Char)) :
    Decidable (Posix.IsPath p segs) := by
  unfold Posix.IsPath
  exact inferInstance

/-- A root directory for the examples. -/
def sampleRoot : String := "/srv/www"

/-- The rows of the `mime` table the examples read.  The package holds many more;
no statement below rests on an extension missing here. -/
def sampleTypes (ext : String) : Option String :=
  if ext = "txt" then some "text/plain"
  else if ext = "html" then some "text/html"
  else none

/-- The segments of `sampleRoot`. -/
def sampleRootSegs : List (List Char) := ["srv".data, "www".data]

/-- A filesystem for the examples: the root with an empty directory and a
regular file. -/
def sampleState : MemFs.State :=
  [(["srv"], MemFs.Node.dir), (["srv", "www"], MemFs.Node.dir),
   (["srv", "www", "notes"], MemFs.Node.dir),
   (["srv", "www", "data.xyz"], MemFs.Node.file [1, 2])]

/-- The filesystem of the examples with one more regular file, `README`, whose
name has no extension. -/
def readmeState : MemFs.State :=
  (["srv", "www", "README"], MemFs.Node.file [104, 105]) :: sampleState


/-! ## Properties of the resolver -/

theorem startsWith_iff (s pre : String) :
    startsWith s pre = true ↔ ∃ rest : List Char, s.data = pre.data ++ rest := by
  unfold startsWith
  rw [List.isPrefixOf_iff_prefix]
  constructor
  · rintro ⟨t, ht⟩
    exact ⟨t, ht.symm⟩
  · rintro ⟨t, ht⟩
    exact ⟨t, ht.symm⟩

theorem urlPath_eq (P : Platform) (url : String) (parsed : Option String) (decoded : String)
    (hp : P.parse url = Except.ok parsed)
    (hd : P.decodeURIComponent (pathnameOf parsed) = Except.ok decoded) :
    urlPath P url =
      if startsWith (P.resolve P.baseDirectory (slice1 decoded)) (P.baseDirectory ++ P.sep) = true
      then Except.ok (P.resolve P.baseDirectory (slice1 decoded))
      else Except.error forbidden := by
  unfold urlPath
  simp only [hp]
  unfold pathnameOf at hd
  simp only [hd]
  by_cases h : startsWith (P.resolve P.baseDirectory (slice1 decoded)) (P.baseDirectory ++ P.sep) = true
  · simp [h]
  · simp [h, forbidden]

theorem urlPath_ok_inv (P : Platform) (url path : String) (h : urlPath P url = Except.ok path) :
    ∃ parsed decoded, P.parse url = Except.ok parsed ∧
      P.decodeURIComponent (pathnameOf parsed) = Except.ok decoded ∧
      path = P.resolve P.baseDirectory (slice1 decoded) ∧
      startsWith path (P.baseDirectory ++ P.sep) = true := by
  cases hp : P.parse url with
  | error e => simp [urlPath, hp] at h
  | ok parsed =>
    cases hd : P.decodeURIComponent (pathnameOf parsed) with
    | error e =>
      unfold pathnameOf at hd
      simp [urlPath, hp, hd] at h
    | ok decoded =>
      rw [urlPath_eq P url parsed decoded hp hd] at h
      by_cases hs : startsWith (P.resolve P.baseDirectory (slice1 decoded)) (P.baseDirectory ++ P.sep) = true
      · rw [if_pos hs] at h
        injection h with h
        subst h
        exact ⟨parsed, decoded, rfl, hd, rfl, hs⟩
      · rw [if_neg hs] at h
        cases h

/-! ## Paths as segments on the POSIX platform -/

namespace Posix

theorem joinSlash_cons_cons (a b : List Char) (l : List (List Char)) :
    joinSlash (a :: b :: l) = a ++ '/' :: joinSlash (b :: l) := rfl

theorem splitSlash_ne_nil (l : List Char) : splitSlash l ≠ [] := by
  cases l with
  | nil => simp [splitSlash]
  | cons c cs =>
    unfold splitSlash
    by_cases h : c = '/'
    · simp [h]
    · simp only [h, if_false]
      split <;> simp

theorem splitSlash_free (l : List Char) : ∀ seg ∈ splitSlash l, '/' ∉ seg := by
  induction l with
  | nil => simp [splitSlash]
  | cons c cs ih =>
    unfold splitSlash
    by_cases h : c = '/'
    · simp only [h, if_true]
      intro seg hseg
      rcases List.mem_cons.mp hseg with h1 | h1
      · simp [h1]
      · exact ih seg h1
    · simp only [h, if_false]
      cases hs : splitSlash cs with
      | nil => exact absurd hs (splitSlash_ne_nil cs)
      | cons seg segs =>
        rw [hs] at ih
        intro x hx
        rcases List.mem_cons.mp hx with h1 | h1
        · subst h1
          intro hmem
          rcases List.mem_cons.mp hmem with h2 | h2
          · exact h h2.symm
          · exact ih seg (List.mem_cons_self _ _) h2
        · exact ih x (List.mem_cons_of_mem _ h1)

theorem normalizeAux_clean (stack input : List (List Char))
    (hstack : ∀ seg ∈ stack, Clean seg) (hinput : ∀ seg ∈ input, '/' ∉ seg) :
    ∀ seg ∈ normalizeAux false stack input, Clean seg := by
  induction input generalizing stack with
  | nil =>
    intro seg hseg
    simp only [normalizeAux, List.mem_reverse] at hseg
    exact hstack seg hseg
  | cons x rest ih =>
    have hrest : ∀ seg ∈ rest, '/' ∉ seg := fun seg h => hinput seg (List.mem_cons_of_mem _ h)
    have hx : '/' ∉ x := hinput x (List.mem_cons_self _ _)
    unfold normalizeAux
    by_cases h1 : x = [] ∨ x = ['.']
    · rw [if_pos h1]
      exact ih stack hstack hrest
    · rw [if_neg h1]
      by_cases h2 : x = ['.', '.']
      · rw [if_pos h2]
        cases stack with
        | nil => simpa using ih [] hstack hrest
        | cons top below =>
          have htop : top ≠ ['.', '.'] := (hstack top (List.mem_cons_self _ _)).2.2.1
          simp only [htop, if_false]
          exact ih below (fun seg h => hstack seg (List.mem_cons_of_mem _ h)) hrest
      · rw [if_neg h2]
        apply ih (x :: stack) _ hrest
        intro seg hseg
        rcases List.mem_cons.mp hseg with h3 | h3
        · subst h3
          exact ⟨fun h => h1 (Or.inl h), fun h => h1 (Or.inr h), h2, hx⟩
        · exact hstack seg h3

theorem normalizeString_clean (path : List Char) :
    ∀ seg ∈ normalizeString path false, Clean seg :=
  normalizeAux_clean [] (splitSlash path) (by simp) (splitSlash_free path)

/-- With an absolute first argument `path.resolve` yields an absolute path made of
clean segments. -/
theorem resolveChars_render (cwd a b : List Char) (ha : a.head? = some '/') :
    ∃ segs, (∀ seg ∈ segs, Clean seg) ∧ resolveChars cwd a b = render segs := by
  have hane : a ≠ [] := by
    intro h
    simp [h] at ha
  unfold resolveChars
  by_cases hb : b = []
  · refine ⟨normalizeString (a ++ '/' :: []) false, normalizeString_clean _, ?_⟩
    simp [resolveStep, hb, hane, ha, render]
  · by_cases hb2 : b.head? = some '/'
    · refine ⟨normalizeString (b ++ '/' :: []) false, normalizeString_clean _, ?_⟩
      simp [resolveStep, hb, hb2, render]
    · refine ⟨normalizeString (a ++ '/' :: (b ++ '/' :: [])) false, normalizeString_clean _, ?_⟩
      simp [resolveStep, hb, hb2, hane, ha, render]

/-- Two separator-free segments that are each followed by a separator agree as
soon as one of the two strings begins with the other. -/
theorem segment_split (b f x y : List Char) (hb : '/' ∉ b) (hf : '/' ∉ f)
    (h : ∃ t, f ++ '/' :: y = (b ++ '/' :: x) ++ t) : b = f ∧ ∃ t, y = x ++ t := by
  induction b generalizing f with
  | nil =>
    cases f with
    | nil =>
      obtain ⟨t, ht⟩ := h
      simp at ht
      exact ⟨rfl, t, ht⟩
    | cons c f1 =>
      obtain ⟨t, ht⟩ := h
      simp at ht
      exact absurd ht.1 (fun hc => hf (by rw [← hc]; exact List.mem_cons_self _ _))
  | cons c b1 ih =>
    cases f with
    | nil =>
      obtain ⟨t, ht⟩ := h
      simp at ht
      exact absurd ht.1 (fun hc => hb (by rw [hc]; exact List.mem_cons_self _ _))
    | cons d f1 =>
      obtain ⟨t, ht⟩ := h
      simp at ht
      have hb1 : '/' ∉ b1 := fun hm => hb (List.mem_cons_of_mem _ hm)
      have hf1 : '/' ∉ f1 := fun hm => hf (List.mem_cons_of_mem _ hm)
      obtain ⟨h1, h2⟩ := ih f1 hb1 hf1 ⟨t, by simpa using ht.2⟩
      exact ⟨by rw [ht.1, h1], h2⟩

/-- A separator-free segment does not begin with a segment followed by a
separator. -/
theorem segment_no_split (b f x : List Char) (hf : '/' ∉ f) :
    ¬ ∃ t, f = (b ++ '/' :: x) ++ t := by
  rintro ⟨t, ht⟩
  apply hf
  rw [ht]
  simp

/-- A rendered path that begins with another rendered path and a separator has
the segments of that path, and at least one more. -/
theorem joinSlash_extends (bsegs fsegs : List (List Char)) (hbne : bsegs ≠ [])
    (hb : ∀ seg ∈ bsegs, '/' ∉ seg) (hf : ∀ seg ∈ fsegs, '/' ∉ seg)
    (h : ∃ t, joinSlash fsegs = (joinSlash bsegs ++ ['/']) ++ t) :
    ∃ rest, rest ≠ [] ∧ fsegs = bsegs ++ rest := by
  induction bsegs generalizing fsegs with
  | nil => exact absurd rfl hbne
  | cons b bs ih =>
    have hbfree : '/' ∉ b := hb b (List.mem_cons_self _ _)
    cases fsegs with
    | nil =>
      obtain ⟨t, ht⟩ := h
      cases bs <;> simp [joinSlash] at ht
    | cons f fs =>
      have hffree : '/' ∉ f := hf f (List.mem_cons_self _ _)
      cases fs with
      | nil =>
        exfalso
        obtain ⟨t, ht⟩ := h
        cases bs with
        | nil =>
          exact segment_no_split b f [] hffree ⟨t, by simpa [joinSlash] using ht⟩
        | cons b2 bs2 =>
          refine segment_no_split b f (joinSlash (b2 :: bs2) ++ ['/']) hffree ⟨t, ?_⟩
          simpa [joinSlash] using ht
      | cons f2 fs2 =>
        obtain ⟨t, ht⟩ := h
        rw [joinSlash_cons_cons] at ht
        cases bs with
        | nil =>
          have := segment_split b f [] (joinSlash (f2 :: fs2)) hbfree hffree
            ⟨t, by simpa [joinSlash] using ht⟩
          exact ⟨f2 :: fs2, by simp, by simp [this.1]⟩
        | cons b2 bs2 =>
          rw [joinSlash_cons_cons] at ht
          have := segment_split b f (joinSlash (b2 :: bs2) ++ ['/']) (joinSlash (f2 :: fs2))
            hbfree hffree ⟨t, by simpa using ht⟩
          obtain ⟨rest, hrest, heq⟩ := ih (f2 :: fs2) (by simp)
            (fun seg h => hb seg (List.mem_cons_of_mem _ h))
            (fun seg h => hf seg (List.mem_cons_of_mem _ h)) this.2
          exact ⟨rest, hrest, by rw [this.1, heq]; rfl⟩

end Posix

/-! ## What the handlers assume of the filesystem -/

namespace MemFs

theorem find_nil (s : State) : find s [] = some Node.dir := by
  simp [find]

theorem lookupEntry_remove (s : State) (key k : List String) :
    lookupEntry (remove s key) k = if k = key then none else lookupEntry s k := by
  induction s with
  | nil => simp [remove, lookupEntry]
  | cons e rest ih =>
    obtain ⟨k1, n1⟩ := e
    have ih1 : lookupEntry (remove rest key) k = if k = key then none else lookupEntry rest k := ih
    by_cases h1 : k1 = key
    · have hrem : remove ((k1, n1) :: rest) key = remove rest key := by
        simp [remove, h1]
      rw [hrem, ih1]
      by_cases h2 : k = key
      · rw [if_pos h2, if_pos h2]
      · have h3 : ¬ k1 = k := fun h => h2 (h ▸ h1)
        rw [if_neg h2, if_neg h2]
        simp [lookupEntry, h3]
    · have hrem : remove ((k1, n1) :: rest) key = (k1, n1) :: remove rest key := by
        simp [remove, h1]
      rw [hrem]
      by_cases h2 : k1 = k
      · have h3 : ¬ k = key := fun h => h1 (h2.trans h)
        simp [lookupEntry, h2, h3]
      · simp only [lookupEntry, h2, if_false]
        exact ih1

theorem find_remove (s : State) (key k : List String) :
    find (remove s key) k = if k = key ∧ k ≠ [] then none else find s k := by
  unfold find
  by_cases hk : k = []
  · simp [hk]
  · rw [lookupEntry_remove]
    simp [hk]

theorem find_put (s : State) (key k : List String) (n : Node) (hkey : key ≠ []) :
    find (put s key n) k = if k = key then some n else find s k := by
  unfold find
  by_cases hk : k = []
  · have : ¬ k = key := fun h => hkey (h ▸ hk)
    subst hk
    have h0 : ¬ ([] : List String) = key := this
    simp [h0]
  · by_cases h1 : k = key
    · simp [put, lookupEntry, h1, hkey]
    · have h2 : ¬ key = k := fun h => h1 h.symm
      simp only [put, lookupEntry, hk, if_false, h2, h1]
      rw [lookupEntry_remove]
      simp [h1]

theorem walk_congr (s s1 : State) (cur : Node) (done todo : List String)
    (h : ∀ k : List String, k.length ≤ done.length + todo.length → find s1 k = find s k) :
    walk s1 cur done todo = walk s cur done todo := by
  induction todo generalizing cur done with
  | nil => cases cur <;> rfl
  | cons seg rest ih =>
    cases cur with
    | file c => rfl
    | dir =>
      simp only [walk]
      rw [h (done ++ [seg]) (by simp)]
      by_cases hl : longName seg = true
      · simp [hl]
      · simp only [hl]
        cases hf : find s (done ++ [seg]) with
        | none => rfl
        | some n =>
          simp only
          exact ih n (done ++ [seg]) (fun k hk => h k (by simp at hk ⊢; omega))

theorem walk_snoc (s : State) (cur : Node) (done todo : List String) (x : String) :
    walk s cur done (todo ++ [x]) =
      match walk s cur done todo with
      | Except.error m => Except.error m
      | Except.ok n => lastStep s (done ++ todo ++ [x]) x n := by
  induction todo generalizing cur done with
  | nil =>
    cases cur with
    | file c => rfl
    | dir =>
      simp only [List.nil_append, walk, List.append_nil, lastStep]
  | cons seg rest ih =>
    cases cur with
    | file c => rfl
    | dir =>
      simp only [List.cons_append, walk]
      by_cases hl : longName seg = true
      · simp [hl]
      · simp only [hl]
        cases hf : find s (done ++ [seg]) with
        | none => rfl
        | some n =>
          simp only
          have := ih n (done ++ [seg])
          simp only [List.append_assoc, List.singleton_append] at this ⊢
          exact this

theorem snoc_of_ne_nil (l : List String) (h : l ≠ []) :
    ∃ x, l = l.dropLast ++ [x] ∧ l.getLast? = some x := by
  refine ⟨l.getLast h, (List.dropLast_append_getLast h).symm, ?_⟩
  exact List.getLast?_eq_getLast l h

/-- A walk from the root through a non-empty path is the walk to its parent and
one last step. -/
theorem locate_split (s : State) (segs : List String) (x : String)
    (hx : segs = segs.dropLast ++ [x]) :
    walk s Node.dir [] segs =
      match walk s Node.dir [] segs.dropLast with
      | Except.error m => Except.error m
      | Except.ok n => lastStep s segs x n := by
  have h := walk_snoc s Node.dir [] segs.dropLast x
  simp only [List.nil_append] at h
  rw [← hx] at h
  exact h

theorem walk_parent_congr (s s1 : State) (segs : List String) (hne : segs ≠ [])
    (h : ∀ k : List String, k ≠ segs → find s1 k = find s k) :
    walk s1 Node.dir [] segs.dropLast = walk s Node.dir [] segs.dropLast := by
  apply walk_congr
  intro k hk
  apply h
  intro hks
  subst hks
  have : k.dropLast.length = k.length - 1 := List.length_dropLast k
  have hpos : 0 < k.length := List.length_pos.mpr hne
  simp at hk
  omega

theorem locate_root (s : State) (path : String) (h : segments path = []) :
    locate s path = Except.ok Node.dir := by
  unfold locate
  rw [h]
  rfl

/-- What a walk that ends on a node says of the path: its parent is a directory,
its last name is not too long, and the node is the entry stored for it. -/
theorem locate_ok_inv (s : State) (path : String) (n : Node)
    (hne : segments path ≠ []) (h : locate s path = Except.ok n) :
    ∃ x, segments path = (segments path).dropLast ++ [x] ∧
      walk s Node.dir [] (segments path).dropLast = Except.ok Node.dir ∧
      longName x = false ∧ find s (segments path) = some n := by
  obtain ⟨x, hx, _⟩ := snoc_of_ne_nil (segments path) hne
  refine ⟨x, hx, ?_⟩
  unfold locate at h
  rw [locate_split s (segments path) x hx] at h
  cases hw : walk s Node.dir [] (segments path).dropLast with
  | error m => rw [hw] at h; cases h
  | ok m =>
    rw [hw] at h
    cases m with
    | file c => cases h
    | dir =>
      simp only [lastStep] at h
      cases hl : longName x with
      | true =>
        rw [hl] at h
        cases h
      | false =>
        rw [hl] at h
        cases hf : find s (segments path) with
        | none =>
          rw [hf] at h
          cases h
        | some m =>
          rw [hf] at h
          have hmn : m = n := by
            injection h
          subst hmn
          exact ⟨rfl, rfl, rfl⟩

theorem locate_after_put (s : State) (path : String) (n : Node) (x : String)
    (hx : segments path = (segments path).dropLast ++ [x])
    (hparent : walk s Node.dir [] (segments path).dropLast = Except.ok Node.dir)
    (hname : longName x = false) :
    locate (put s (segments path) n) path = Except.ok n := by
  have hne : segments path ≠ [] := by
    intro h0
    rw [h0] at hx
    simp at hx
  unfold locate
  rw [locate_split _ (segments path) x hx]
  rw [walk_parent_congr s (put s (segments path) n) (segments path) hne
    (fun k hk => by rw [find_put _ _ _ _ hne]; simp [hk])]
  rw [hparent]
  simp [lastStep, hname, find_put _ _ _ _ hne]

theorem locate_after_remove (s : State) (path : String) (n : Node)
    (hne : segments path ≠ []) (h : locate s path = Except.ok n) :
    locate (remove s (segments path)) path = Except.error Miss.notFound := by
  obtain ⟨x, hx, hparent, hname, _⟩ := locate_ok_inv s path n hne h
  unfold locate
  rw [locate_split _ (segments path) x hx]
  rw [walk_parent_congr s (remove s (segments path)) (segments path) hne
    (fun k hk => by rw [find_remove]; simp [hk])]
  rw [hparent]
  simp [lastStep, hname, find_remove, hne]

theorem pathFault_call (call other path : String) (h : pathFault call path = none) :
    pathFault other path = none := by
  unfold pathFault at h ⊢
  by_cases h1 : '\x00' ∈ path.data
  · simp [h1] at h
  · by_cases h2 : path = ""
    · simp [h1, h2] at h
    · by_cases h3 : 4096 ≤ path.utf8ByteSize
      · simp [h1, h2, h3] at h
      · simp [h1, h2, h3]

theorem lookup_ok_inv (call path : String) (s : State) (n : Node)
    (h : lookup call path s = Except.ok n) :
    pathFault call path = none ∧ locate s path = Except.ok n := by
  unfold lookup at h
  cases hp : pathFault call path with
  | some e => simp [hp] at h
  | none =>
    simp only [hp] at h
    cases hl : locate s path with
    | error m => simp [hl] at h
    | ok m =>
      simp only [hl, Except.ok.injEq] at h
      subst h
      exact ⟨rfl, rfl⟩

theorem lookup_of_locate_ok (call path : String) (s : State) (n : Node)
    (hp : pathFault call path = none) (hl : locate s path = Except.ok n) :
    lookup call path s = Except.ok n := by
  unfold lookup
  rw [hp, hl]

theorem lookup_of_locate_error (call path : String) (s : State) (m : Miss)
    (hp : pathFault call path = none) (hl : locate s path = Except.error m) :
    lookup call path s = Except.error (m.toError call path) := by
  unfold lookup
  rw [hp, hl]

end MemFs

theorem memFs_write_read (path : String) (b : Bytes) (s s1 : MemFs.State)
    (h : MemFs.writeStream path b s = (Except.ok (), s1)) :
    MemFs.stat path s1 = Except.ok { isDirectory := false } ∧
      MemFs.readStream path s1 = Except.ok b := by
  unfold MemFs.writeStream at h
  cases hpar : MemFs.parentOf "open" path s with
  | error e => simp [hpar] at h
  | ok last =>
    cases last with
    | none => simp [hpar] at h
    | some x =>
      have hs1 : s1 = MemFs.put s (MemFs.segments path) (MemFs.Node.file b) := by
        simp only [hpar] at h
        cases hf : MemFs.find s (MemFs.segments path) with
        | none =>
          simp only [hf] at h
          exact (Prod.mk.inj h).2.symm
        | some m =>
          cases m with
          | dir => simp [hf] at h
          | file c =>
            simp only [hf] at h
            exact (Prod.mk.inj h).2.symm
      unfold MemFs.parentOf at hpar
      cases hp : MemFs.pathFault "open" path with
      | some e => simp [hp] at hpar
      | none =>
        simp only [hp] at hpar
        cases hw : MemFs.walk s MemFs.Node.dir [] (MemFs.segments path).dropLast with
        | error m => simp [hw] at hpar
        | ok m =>
          cases m with
          | file c => simp [hw] at hpar
          | dir =>
            simp only [hw] at hpar
            cases hg : (MemFs.segments path).getLast? with
            | none => simp [hg] at hpar
            | some y =>
              simp only [hg] at hpar
              by_cases hl : MemFs.longName y = true
              · simp [hl] at hpar
              · have hname : MemFs.longName y = false := by simpa using hl
                have hx : MemFs.segments path = (MemFs.segments path).dropLast ++ [y] :=
                  (List.dropLast_append_getLast? y hg).symm
                have hloc := MemFs.locate_after_put s path (MemFs.Node.file b) y hx hw hname
                rw [← hs1] at hloc
                have hstat := MemFs.lookup_of_locate_ok "stat" path s1 _
                  (MemFs.pathFault_call "open" "stat" path hp) hloc
                have hopen := MemFs.lookup_of_locate_ok "open" path s1 _ hp hloc
                simp [MemFs.stat, MemFs.readStream, hstat, hopen]

theorem memFs_gone (call path : String) (s : MemFs.State) (n : MemFs.Node)
    (hne : MemFs.segments path ≠ [])
    (h : MemFs.lookup call path s = Except.ok n) :
    ∃ e, MemFs.stat path (MemFs.remove s (MemFs.segments path)) = Except.error e ∧
      e.code = some "ENOENT" := by
  obtain ⟨hp, hl⟩ := MemFs.lookup_ok_inv call path s n h
  have hgone := MemFs.locate_after_remove s path n hne hl
  have hstat := MemFs.lookup_of_locate_error "stat" path _ _
    (MemFs.pathFault_call call "stat" path hp) hgone
  exact ⟨MemFs.Miss.notFound.toError "stat" path, by simp [MemFs.stat, hstat], rfl⟩

theorem memFs_unlink_gone (path : String) (s s1 : MemFs.State)
    (h : MemFs.unlink path s = (Except.ok (), s1)) :
    ∃ e, MemFs.stat path s1 = Except.error e ∧ e.code = some "ENOENT" := by
  unfold MemFs.unlink at h
  cases hl : MemFs.lookup "unlink" path s with
  | error e => simp [hl] at h
  | ok n =>
    cases n with
    | dir => simp [hl] at h
    | file c =>
      have hne : MemFs.segments path ≠ [] := by
        intro h0
        have := (MemFs.lookup_ok_inv _ _ _ _ hl).2
        rw [MemFs.locate_root s path h0] at this
        cases this
      simp only [hl] at h
      have hs1 : s1 = MemFs.remove s (MemFs.segments path) := (Prod.mk.inj h).2.symm
      rw [hs1]
      exact memFs_gone "unlink" path s _ hne hl

theorem memFs_rmdir_gone (path : String) (s s1 : MemFs.State)
    (h : MemFs.rmdir path s = (Except.ok (), s1)) :
    ∃ e, MemFs.stat path s1 = Except.error e ∧ e.code = some "ENOENT" := by
  unfold MemFs.rmdir at h
  cases hl : MemFs.lookup "rmdir" path s with
  | error e => simp [hl] at h
  | ok n =>
    cases n with
    | file c => simp [hl] at h
    | dir =>
      simp only [hl] at h
      by_cases hne : MemFs.segments path = []
      · simp [hne] at h
      · rw [if_neg hne] at h
        by_cases hc : MemFs.children s (MemFs.segments path) ≠ []
        · rw [if_pos hc] at h
          cases h
        · rw [if_neg hc] at h
          have hs1 : s1 = MemFs.remove s (MemFs.segments path) := (Prod.mk.inj h).2.symm
          rw [hs1]
          exact memFs_gone "rmdir" path s _ hne hl

/-- The in-memory filesystem keeps the laws. -/
theorem memFs_lawful : memFs.Lawful :=
  { write_read := memFs_write_read
    unlink_gone := memFs_unlink_gone
    rmdir_gone := memFs_rmdir_gone }

/-! ## What the dispatcher writes -/

theorem writeHead_cors (status : Nat) (type : Option String) :
    corsResponse.writeHead status type =
      { statusCode := status, headers := corsHeaders ++ [("Content-Type", type)], body := none } := by
  simp [Response.writeHead, Response.setHeader, corsResponse, corsHeaders]

theorem writeOutcome_text {σ : Type} (fs : Fs σ) (s : σ) (status : Option Nat) (t : String)
    (type : JsOpt String) :
    writeOutcome fs corsResponse { status := status, body := some (Body.text t), type := type } s =
      finished (status.getD 200) (typeOrDefault type) (Sent.text t) := by
  simp [writeOutcome, writeHead_cors, Response.endWith, finished]

theorem writeOutcome_none {σ : Type} (fs : Fs σ) (s : σ) (status : Option Nat)
    (type : JsOpt String) :
    writeOutcome fs corsResponse { status := status, body := none, type := type } s =
      finished (status.getD 200) (typeOrDefault type) (Sent.text "") := by
  simp [writeOutcome, writeHead_cors, Response.endWith, finished]

theorem writeOutcome_stream {σ : Type} (fs : Fs σ) (s : σ) (status : Option Nat) (path : String)
    (type : JsOpt String) (b : Bytes) (h : fs.readStream path s = Except.ok b) :
    writeOutcome fs corsResponse { status := status, body := some (Body.stream path), type := type } s =
      finished (status.getD 200) (typeOrDefault type) (Sent.bytes b) := by
  simp [writeOutcome, writeHead_cors, h, finished]

theorem requestListener_options {σ : Type} (P : Platform) (fs : Fs σ) (request : Request) (s : σ)
    (h : request.method = "OPTIONS") :
    requestListener P fs request s =
      ({ statusCode := 200, headers := corsHeaders, body := some (Sent.text "") }, s) := by
  simp [requestListener, h, Response.setHeader, Response.endWith, corsHeaders]

theorem requestListener_handler {σ : Type} (P : Platform) (fs : Fs σ) (request : Request) (s : σ)
    (h : request.method ≠ "OPTIONS") :
    requestListener P fs request s =
      (writeOutcome fs corsResponse
          (settle (((methods P fs request.method).getD notAllowed) request s).1)
          (((methods P fs request.method).getD notAllowed) request s).2,
        (((methods P fs request.method).getD notAllowed) request s).2) := by
  have hc : ((({} : Response).setHeader "Access-Control-Allow-Origin" (some "*")).setHeader
      "Access-Control-Allow-Methods" (some "*")).setHeader "Access-Control-Allow-Headers" (some "*")
      = corsResponse := by
    simp [Response.setHeader, corsResponse, corsHeaders]
  unfold requestListener
  simp only [h, if_false, hc]

theorem methods_GET {σ : Type} (P : Platform) (fs : Fs σ) :
    methods P fs "GET" = some (GET P fs) := by
  simp [methods]

theorem methods_PUT {σ : Type} (P : Platform) (fs : Fs σ) :
    methods P fs "PUT" = some (PUT P fs) := by
  simp [methods]

theorem methods_DELETE {σ : Type} (P : Platform) (fs : Fs σ) :
    methods P fs "DELETE" = some (DELETE P fs) := by
  simp [methods]

/-! ## The resolver keeps inside the root -/

theorem Posix.joinSlash_no_leading_slash (segs : List (List Char))
    (h : ∀ seg ∈ segs, Posix.Clean seg) (t : List Char) : Posix.joinSlash segs ≠ '/' :: t := by
  intro heq
  cases segs with
  | nil => simp [Posix.joinSlash] at heq
  | cons f fs =>
    have hf := h f (List.mem_cons_self _ _)
    cases f with
    | nil => exact hf.1 rfl
    | cons c f1 =>
      have hc : c = '/' := by
        cases fs with
        | nil =>
          simp [Posix.joinSlash] at heq
          exact heq.1
        | cons f2 fs2 =>
          simp [Posix.joinSlash] at heq
          exact heq.1
      exact hf.2.2.2 (by rw [hc]; exact List.mem_cons_self _ _)

theorem sampleRoot_isPath : Posix.IsPath sampleRoot sampleRootSegs := by
  decide

theorem posix_isPosix (types : String → Option String) (base : String) :
    (posix types base).IsPosix :=
  ⟨rfl, "/", rfl⟩

/-- On POSIX, a resolved path that begins with the root and a separator is made
of the segments of the root and at least one more. -/
theorem posix_beneath (P : Platform) (hP : P.IsPosix) (bsegs : List (List Char))
    (hbase : Posix.IsPath P.baseDirectory bsegs) (arg : String)
    (hs : startsWith (P.resolve P.baseDirectory arg) (P.baseDirectory ++ P.sep) = true) :
    ∃ more, more ≠ [] ∧ Posix.IsPath (P.resolve P.baseDirectory arg) (bsegs ++ more) := by
  obtain ⟨hsep, cwd, hres⟩ := hP
  obtain ⟨hbclean, hbdata⟩ := hbase
  have hhead : P.baseDirectory.data.head? = some '/' := by
    rw [hbdata]
    rfl
  obtain ⟨fsegs, hfclean, hfdata⟩ :=
    Posix.resolveChars_render cwd.data P.baseDirectory.data arg.data hhead
  have hfull : (P.resolve P.baseDirectory arg).data = Posix.render fsegs := by
    rw [hres]
    exact hfdata
  obtain ⟨rest, hrest⟩ := (startsWith_iff _ _).mp hs
  rw [hfull, String.data_append, hbdata, hsep] at hrest
  have hjoin : Posix.joinSlash fsegs = (Posix.joinSlash bsegs ++ ['/']) ++ rest := by
    simpa [Posix.render] using hrest
  by_cases hb : bsegs = []
  · subst hb
    exact absurd (by simpa [Posix.joinSlash] using hjoin)
      (Posix.joinSlash_no_leading_slash fsegs hfclean rest)
  · obtain ⟨more, hmore, heq⟩ := Posix.joinSlash_extends bsegs fsegs hb
      (fun seg h => (hbclean seg h).2.2.2) (fun seg h => (hfclean seg h).2.2.2) ⟨rest, hjoin⟩
    refine ⟨more, hmore, ?_, ?_⟩
    · rw [← heq]
      exact hfclean
    · rw [← heq]
      exact hfull

/-- C1: whenever `urlPath` returns a path, the path is the resolved request path
and begins with `baseDirectory` followed by the separator; on a POSIX platform
whose root is the normalised path of segments `bsegs`, the returned path is the
normalised absolute path of `bsegs` followed by at least one more segment, so it
lies strictly beneath the root and is no sibling that shares the root as a
string. -/
theorem urlPath_within_root (P : Platform) (url path : String)
    (h : urlPath P url = Except.ok path) :
    (∃ rest : List Char, path.data = (P.baseDirectory ++ P.sep).data ++ rest) ∧
    (∀ bsegs, P.IsPosix → Posix.IsPath P.baseDirectory bsegs →
      ∃ more, more ≠ [] ∧ Posix.IsPath path (bsegs ++ more)) := by
  obtain ⟨parsed, decoded, _, _, hpath, hs⟩ := urlPath_ok_inv P url path h
  refine ⟨(startsWith_iff _ _).mp hs, ?_⟩
  intro bsegs hP hbase
  rw [hpath] at hs ⊢
  exact posix_beneath P hP bsegs hbase (slice1 decoded) hs

/-- C1 at a concrete request: `/a/../b/./c.txt?x=1` under `/srv/www`. -/
theorem urlPath_within_root_witness :
    urlPath (posix sampleTypes sampleRoot) "/a/../b/./c.txt?x=1" = Except.ok "/srv/www/b/c.txt" ∧
    (∃ rest : List Char, "/srv/www/b/c.txt".data = "/srv/www/".data ++ rest) ∧
    (∃ more, more ≠ [] ∧ Posix.IsPath "/srv/www/b/c.txt" (sampleRootSegs ++ more)) :=
  ⟨by decide,
   (urlPath_within_root (posix sampleTypes sampleRoot) "/a/../b/./c.txt?x=1" "/srv/www/b/c.txt" (by decide)).1,
   (urlPath_within_root (posix sampleTypes sampleRoot) "/a/../b/./c.txt?x=1" "/srv/www/b/c.txt" (by decide)).2
     sampleRootSegs (posix_isPosix sampleTypes sampleRoot) sampleRoot_isPath⟩

theorem urlPath_forbidden_of_not_startsWith (P : Platform) (url : String)
    (parsed : Option String) (decoded : String)
    (hp : P.parse url = Except.ok parsed)
    (hd : P.decodeURIComponent (pathnameOf parsed) = Except.ok decoded)
    (hs : ¬ startsWith (P.resolve P.baseDirectory (slice1 decoded)) (P.baseDirectory ++ P.sep) = true) :
    urlPath P url = Except.error forbidden := by
  rw [urlPath_eq P url parsed decoded hp hd, if_neg hs]

theorem etc_passwd_escapes (segs : List (List Char)) (h : Posix.IsPath "/etc/passwd" segs) :
    ¬ sampleRootSegs <+: segs := by
  rintro ⟨more, rfl⟩
  have hd : "/etc/passwd".data = Posix.render (sampleRootSegs ++ more) := h.2
  have hl : "/etc/passwd".data = ['/', 'e', 't', 'c', '/', 'p', 'a', 's', 's', 'w', 'd'] := rfl
  rw [hl] at hd
  cases more with
  | nil => simp [Posix.render, sampleRootSegs, Posix.joinSlash] at hd
  | cons m ms => simp [Posix.render, sampleRootSegs, Posix.joinSlash] at hd

/-- C2: on a POSIX platform whose root is the normalised path of segments
`bsegs`, a request whose pathname decodes (literal or percent-encoded `..`
alike) and whose normalised path does not run through the segments of the root
makes `urlPath` throw the object of status 403 and body `Forbidden`; no path is
returned. -/
theorem urlPath_traversal_forbidden (P : Platform) (hP : P.IsPosix)
    (bsegs : List (List Char)) (hbase : Posix.IsPath P.baseDirectory bsegs)
    (url : String) (parsed : Option String) (decoded : String)
    (hp : P.parse url = Except.ok parsed)
    (hd : P.decodeURIComponent (pathnameOf parsed) = Except.ok decoded)
    (hesc : ∀ segs, Posix.IsPath (P.resolve P.baseDirectory (slice1 decoded)) segs →
      ¬ bsegs <+: segs) :
    urlPath P url =
      Except.error (Thrown.object { status := some 403, body := some (Body.text "Forbidden") }) := by
  apply urlPath_forbidden_of_not_startsWith P url parsed decoded hp hd
  intro hs
  obtain ⟨more, _, hpath⟩ := posix_beneath P hP bsegs hbase (slice1 decoded) hs
  exact hesc (bsegs ++ more) hpath ⟨more, rfl⟩

/-- C2 at `/../../etc/passwd` and at `/%2e%2e/%2e%2e/etc/passwd` under
`/srv/www`: both resolve to `/etc/passwd` and are refused. -/
theorem urlPath_traversal_forbidden_witness :
    ((posix sampleTypes sampleRoot).resolve sampleRoot (slice1 "/../../etc/passwd") = "/etc/passwd" ∧
      urlPath (posix sampleTypes sampleRoot) "/../../etc/passwd" = Except.error forbidden) ∧
    ((posix sampleTypes sampleRoot).decodeURIComponent "/%2e%2e/%2e%2e/etc/passwd" =
        Except.ok "/../../etc/passwd" ∧
      urlPath (posix sampleTypes sampleRoot) "/%2e%2e/%2e%2e/etc/passwd" = Except.error forbidden) :=
  ⟨⟨by decide,
    urlPath_traversal_forbidden (posix sampleTypes sampleRoot) (posix_isPosix sampleTypes sampleRoot) sampleRootSegs
      sampleRoot_isPath "/../../etc/passwd" (some "/../../etc/passwd") "/../../etc/passwd"
      (by decide) (by decide)
      (fun segs h => etc_passwd_escapes segs
        ((by decide : (posix sampleTypes sampleRoot).resolve sampleRoot (slice1 "/../../etc/passwd")
          = "/etc/passwd") ▸ h))⟩,
   ⟨by decide,
    urlPath_traversal_forbidden (posix sampleTypes sampleRoot) (posix_isPosix sampleTypes sampleRoot) sampleRootSegs
      sampleRoot_isPath "/%2e%2e/%2e%2e/etc/passwd" (some "/%2e%2e/%2e%2e/etc/passwd")
      "/../../etc/passwd" (by decide) (by decide)
      (fun segs h => etc_passwd_escapes segs
        ((by decide : (posix sampleTypes sampleRoot).resolve sampleRoot (slice1 "/../../etc/passwd")
          = "/etc/passwd") ▸ h))⟩⟩

/-- C9, the claim refuted: under `/srv/www` the target `/.` resolves to the root
itself, and `urlPath` throws the 403 object instead of returning the root. -/
theorem urlPath_root_rejected :
    (posix sampleTypes sampleRoot).resolve sampleRoot (slice1 "/.") = sampleRoot ∧
    urlPath (posix sampleTypes sampleRoot) "/." = Except.error forbidden ∧
    urlPath (posix sampleTypes sampleRoot) "/." ≠ Except.ok sampleRoot := by
  decide

/-- C9 as amended: with a non-empty separator, a request whose decoded,
normalised path is exactly the root is refused with the 403 object, and
`urlPath` throws that object exactly when the computed path does not begin with
the root followed by the separator. -/
theorem urlPath_root_forbidden (P : Platform) (url : String)
    (parsed : Option String) (decoded : String)
    (hp : P.parse url = Except.ok parsed)
    (hd : P.decodeURIComponent (pathnameOf parsed) = Except.ok decoded)
    (hsep : P.sep ≠ "") :
    (P.resolve P.baseDirectory (slice1 decoded) = P.baseDirectory →
      urlPath P url = Except.error forbidden) ∧
    (urlPath P url = Except.error forbidden ↔
      ¬ ∃ rest : List Char, (P.resolve P.baseDirectory (slice1 decoded)).data =
        (P.baseDirectory ++ P.sep).data ++ rest) := by
  have hiff : urlPath P url = Except.error forbidden ↔
      ¬ ∃ rest : List Char, (P.resolve P.baseDirectory (slice1 decoded)).data =
        (P.baseDirectory ++ P.sep).data ++ rest := by
    rw [← startsWith_iff, urlPath_eq P url parsed decoded hp hd]
    by_cases hs : startsWith (P.resolve P.baseDirectory (slice1 decoded))
        (P.baseDirectory ++ P.sep) = true
    · simp [hs]
    · simp [hs]
  refine ⟨?_, hiff⟩
  intro hroot
  rw [hiff, hroot]
  rintro ⟨rest, hrest⟩
  rw [String.data_append, List.append_assoc] at hrest
  have hnil : P.sep.data ++ rest = [] := List.append_right_eq_self.mp hrest.symm
  have hdata : P.sep.data = [] := (List.append_eq_nil.mp hnil).1
  exact hsep (String.ext hdata)

/-- C9 as amended, at `/.` under `/srv/www`. -/
theorem urlPath_root_forbidden_witness :
    (posix sampleTypes sampleRoot).resolve sampleRoot (slice1 "/.") = sampleRoot ∧
    urlPath (posix sampleTypes sampleRoot) "/." = Except.error forbidden :=
  ⟨by decide,
   (urlPath_root_forbidden (posix sampleTypes sampleRoot) "/." (some "/.") "/." (by decide) (by decide)
      (by decide)).1 (by decide)⟩

/-! ## The handlers -/

theorem typeOrDefault_getType (o : Option String) :
    typeOrDefault (match o with
      | none => JsOpt.null
      | some t => JsOpt.value t) = o := by
  cases o <;> rfl

/-- C3, the claim refuted: a PUT to `/../x` is answered 403 `Forbidden`, not 204,
and writes nothing. -/
theorem put_outside_root_forbidden :
    requestListener (posix sampleTypes sampleRoot) memFs
        { method := "PUT", url := "/../x", body := [104, 105] } sampleState =
      (finished 403 (some "text/plain") (Sent.text "Forbidden"), sampleState) ∧
    (requestListener (posix sampleTypes sampleRoot) memFs
        { method := "PUT", url := "/../x", body := [104, 105] } sampleState).1.statusCode ≠ 204 := by
  decide

/-- C3 as amended: for every URL that `urlPath` resolves inside the root and
every byte sequence `b`, if the write stream on the resolved path finishes
without error, the PUT is answered 204 with an empty body, and a GET of the same
URL right afterwards is answered 200 with exactly `b` as its body. -/
theorem PUT_then_GET (σ : Type) (P : Platform) (fs : Fs σ) (hfs : fs.Lawful)
    (url path : String) (b ignored : Bytes) (s s1 : σ)
    (hpath : urlPath P url = Except.ok path)
    (hwrite : fs.writeStream path b s = (Except.ok (), s1)) :
    requestListener P fs { method := "PUT", url := url, body := b } s =
      (finished 204 (some "text/plain") (Sent.text ""), s1) ∧
    requestListener P fs { method := "GET", url := url, body := ignored } s1 =
      (finished 200 (P.getType path) (Sent.bytes b), s1) := by
  obtain ⟨hstat, hread⟩ := hfs.write_read path b s s1 hwrite
  constructor
  · rw [requestListener_handler P fs _ s (show "PUT" ≠ "OPTIONS" by decide)]
    simp only [methods_PUT, Option.getD_some]
    have hput : PUT P fs { method := "PUT", url := url, body := b } s =
        (Except.ok { status := some 204 }, s1) := by
      simp [PUT, hpath, pipeStream, hwrite]
    rw [hput]
    simp only [settle]
    rw [writeOutcome_none]
    rfl
  · rw [requestListener_handler P fs _ s1 (show "GET" ≠ "OPTIONS" by decide)]
    simp only [methods_GET, Option.getD_some]
    have hget : GET P fs { method := "GET", url := url, body := ignored } s1 =
        (Except.ok { body := some (Body.stream path),
                     type := match P.getType path with
                             | none => JsOpt.null
                             | some t => JsOpt.value t }, s1) := by
      simp [GET, hpath, hstat]
    rw [hget]
    simp only [settle]
    rw [writeOutcome_stream fs s1 none path _ b hread, typeOrDefault_getType]
    rfl

/-- C3 as amended, at `PUT /notes/a.txt` with the bytes of `hi`. -/
theorem PUT_then_GET_witness :
    requestListener (posix sampleTypes sampleRoot) memFs
        { method := "PUT", url := "/notes/a.txt", body := [104, 105] } sampleState =
      (finished 204 (some "text/plain") (Sent.text ""),
        MemFs.put sampleState ["srv", "www", "notes", "a.txt"] (MemFs.Node.file [104, 105])) ∧
    requestListener (posix sampleTypes sampleRoot) memFs
        { method := "GET", url := "/notes/a.txt", body := [] }
        (MemFs.put sampleState ["srv", "www", "notes", "a.txt"] (MemFs.Node.file [104, 105])) =
      (finished 200 (some "text/plain") (Sent.bytes [104, 105]),
        MemFs.put sampleState ["srv", "www", "notes", "a.txt"] (MemFs.Node.file [104, 105])) :=
  PUT_then_GET MemFs.State (posix sampleTypes sampleRoot) memFs memFs_lawful "/notes/a.txt"
    "/srv/www/notes/a.txt" [104, 105] [] sampleState
    (MemFs.put sampleState ["srv", "www", "notes", "a.txt"] (MemFs.Node.file [104, 105]))
    (by decide) (by decide)

/-- C4: when the URL resolves inside the root and `stat` fails, a failure of code
`ENOENT` makes GET return the outcome of status 404 and body `File not found`
without failing, which the dispatcher answers as 404 with `Content-Type:
text/plain`; a failure with any other code is rejected onward unchanged and is
answered 500, never 404. -/
theorem GET_stat_failure (σ : Type) (P : Platform) (fs : Fs σ) (request : Request) (s : σ)
    (path : String) (e : JsError)
    (hm : request.method = "GET")
    (hpath : urlPath P request.url = Except.ok path)
    (hstat : fs.stat path s = Except.error e) :
    (e.code = some "ENOENT" →
      GET P fs request s =
        (Except.ok { status := some 404, body := some (Body.text "File not found") }, s) ∧
      requestListener P fs request s =
        (finished 404 (some "text/plain") (Sent.text "File not found"), s)) ∧
    (e.code ≠ some "ENOENT" →
      GET P fs request s = (Except.error (Thrown.error e), s) ∧
      requestListener P fs request s =
        (finished 500 (some "text/plain") (Sent.text e.toStr), s)) := by
  have hopt : request.method ≠ "OPTIONS" := by
    rw [hm]
    decide
  constructor
  · intro hcode
    have hget : GET P fs request s =
        (Except.ok { status := some 404, body := some (Body.text "File not found") }, s) := by
      simp [GET, hpath, hstat, hcode]
    refine ⟨hget, ?_⟩
    rw [requestListener_handler P fs request s hopt, hm]
    simp only [methods_GET, Option.getD_some]
    rw [hget]
    simp only [settle]
    rw [writeOutcome_text]
    rfl
  · intro hcode
    have hget : GET P fs request s = (Except.error (Thrown.error e), s) := by
      simp [GET, hpath, hstat, hcode]
    refine ⟨hget, ?_⟩
    rw [requestListener_handler P fs request s hopt, hm]
    simp only [methods_GET, Option.getD_some]
    rw [hget]
    simp only [settle, recover, Thrown.toStr]
    rw [writeOutcome_text]
    rfl

/-- C4 at two requests under `/srv/www`: `/missing.txt` names nothing (`ENOENT`,
answered 404) and `/data.xyz/q` runs through a regular file (`ENOTDIR`, answered
500). -/
theorem GET_stat_failure_witness :
    requestListener (posix sampleTypes sampleRoot) memFs
        { method := "GET", url := "/missing.txt", body := [] } sampleState =
      (finished 404 (some "text/plain") (Sent.text "File not found"), sampleState) ∧
    GET (posix sampleTypes sampleRoot) memFs { method := "GET", url := "/data.xyz/q", body := [] } sampleState =
      (Except.error (Thrown.error
        (MemFs.sysError "ENOTDIR" "not a directory" "stat" "/srv/www/data.xyz/q")), sampleState) :=
  ⟨((GET_stat_failure MemFs.State (posix sampleTypes sampleRoot) memFs
      { method := "GET", url := "/missing.txt", body := [] } sampleState "/srv/www/missing.txt"
      (MemFs.sysError "ENOENT" "no such file or directory" "stat" "/srv/www/missing.txt")
      (by decide) (by decide) (by decide)).1 (by decide)).2,
   ((GET_stat_failure MemFs.State (posix sampleTypes sampleRoot) memFs
      { method := "GET", url := "/data.xyz/q", body := [] } sampleState "/srv/www/data.xyz/q"
      (MemFs.sysError "ENOTDIR" "not a directory" "stat" "/srv/www/data.xyz/q")
      (by decide) (by decide) (by decide)).2 (by decide)).1⟩

theorem DELETE_absent {σ : Type} (P : Platform) (fs : Fs σ) (request : Request) (s : σ)
    (path : String) (e : JsError)
    (hm : request.method = "DELETE")
    (hpath : urlPath P request.url = Except.ok path)
    (hstat : fs.stat path s = Except.error e) (hcode : e.code = some "ENOENT") :
    requestListener P fs request s = (finished 204 (some "text/plain") (Sent.text ""), s) := by
  have hopt : request.method ≠ "OPTIONS" := by
    rw [hm]
    decide
  have hdel : DELETE P fs request s = (Except.ok { status := some 204 }, s) := by
    simp [DELETE, hpath, hstat, hcode]
  rw [requestListener_handler P fs request s hopt, hm]
  simp only [methods_DELETE, Option.getD_some]
  rw [hdel]
  simp only [settle]
  rw [writeOutcome_none]
  rfl

theorem DELETE_present {σ : Type} (P : Platform) (fs : Fs σ) (request : Request) (s s1 : σ)
    (path : String) (stats : Stats)
    (hm : request.method = "DELETE")
    (hpath : urlPath P request.url = Except.ok path)
    (hstat : fs.stat path s = Except.ok stats)
    (hremoved : (if stats.isDirectory then fs.rmdir path s else fs.unlink path s)
      = (Except.ok (), s1)) :
    requestListener P fs request s = (finished 204 (some "text/plain") (Sent.text ""), s1) := by
  have hopt : request.method ≠ "OPTIONS" := by
    rw [hm]
    decide
  have hdel : DELETE P fs request s = (Except.ok { status := some 204 }, s1) := by
    simp only [DELETE, hpath, hstat, hremoved]
  rw [requestListener_handler P fs request s hopt, hm]
  simp only [methods_DELETE, Option.getD_some]
  rw [hdel]
  simp only [settle]
  rw [writeOutcome_none]
  rfl

/-- C5, the claim refuted: `/data.xyz/q` resolves inside the root and names
nothing, since `data.xyz` is a regular file; `stat` rejects with `ENOTDIR`, not
`ENOENT`, DELETE throws the error on, and the answer is 500, not 204. -/
theorem DELETE_through_file_fails :
    urlPath (posix sampleTypes sampleRoot) "/data.xyz/q" = Except.ok "/srv/www/data.xyz/q" ∧
    MemFs.find sampleState ["srv", "www", "data.xyz", "q"] = none ∧
    memFs.stat "/srv/www/data.xyz/q" sampleState =
      Except.error (MemFs.sysError "ENOTDIR" "not a directory" "stat" "/srv/www/data.xyz/q") ∧
    requestListener (posix sampleTypes sampleRoot) memFs
        { method := "DELETE", url := "/data.xyz/q", body := [] } sampleState =
      (finished 500 (some "text/plain")
        (Sent.text "Error: ENOTDIR: not a directory, stat '/srv/www/data.xyz/q'"), sampleState) ∧
    (requestListener (posix sampleTypes sampleRoot) memFs
        { method := "DELETE", url := "/data.xyz/q", body := [] } sampleState).1.statusCode
      ≠ 204 := by
  decide

/-- C5 as amended: DELETE is idempotent.  For a URL that resolves inside the
root, a DELETE of a path that `stat` reports as not found (`ENOENT`) is answered
204 and leaves the filesystem as it was; and when a DELETE has removed a file
(`unlink`) or an empty directory (`rmdir`), it is answered 204 and a second
DELETE of the same URL is answered 204 too and leaves the filesystem
unchanged. -/
theorem DELETE_idempotent (σ : Type) (P : Platform) (fs : Fs σ) (hfs : fs.Lawful)
    (request : Request) (s : σ) (path : String)
    (hm : request.method = "DELETE")
    (hpath : urlPath P request.url = Except.ok path) :
    (∀ e, fs.stat path s = Except.error e → e.code = some "ENOENT" →
      requestListener P fs request s = (finished 204 (some "text/plain") (Sent.text ""), s)) ∧
    (∀ stats s1, fs.stat path s = Except.ok stats →
      (if stats.isDirectory then fs.rmdir path s else fs.unlink path s) = (Except.ok (), s1) →
      requestListener P fs request s = (finished 204 (some "text/plain") (Sent.text ""), s1) ∧
      requestListener P fs request s1 = (finished 204 (some "text/plain") (Sent.text ""), s1)) := by
  constructor
  · intro e hstat hcode
    exact DELETE_absent P fs request s path e hm hpath hstat hcode
  · intro stats s1 hstat hremoved
    refine ⟨DELETE_present P fs request s s1 path stats hm hpath hstat hremoved, ?_⟩
    have hgone : ∃ e, fs.stat path s1 = Except.error e ∧ e.code = some "ENOENT" := by
      by_cases hdir : stats.isDirectory = true
      · rw [if_pos hdir] at hremoved
        exact hfs.rmdir_gone path s s1 hremoved
      · rw [if_neg hdir] at hremoved
        exact hfs.unlink_gone path s s1 hremoved
    obtain ⟨e, hstat1, hcode⟩ := hgone
    exact DELETE_absent P fs request s1 path e hm hpath hstat1 hcode

/-- C5 as amended, under `/srv/www`: `DELETE /missing.txt` changes nothing; `DELETE
/data.xyz` removes the file, and repeated on the new state changes nothing; the
same for the empty directory `/notes`.  Every answer is 204. -/
theorem DELETE_idempotent_witness :
    requestListener (posix sampleTypes sampleRoot) memFs
        { method := "DELETE", url := "/missing.txt", body := [] } sampleState =
      (finished 204 (some "text/plain") (Sent.text ""), sampleState) ∧
    (requestListener (posix sampleTypes sampleRoot) memFs
        { method := "DELETE", url := "/data.xyz", body := [] } sampleState =
      (finished 204 (some "text/plain") (Sent.text ""),
        MemFs.remove sampleState ["srv", "www", "data.xyz"]) ∧
     requestListener (posix sampleTypes sampleRoot) memFs
        { method := "DELETE", url := "/data.xyz", body := [] }
        (MemFs.remove sampleState ["srv", "www", "data.xyz"]) =
      (finished 204 (some "text/plain") (Sent.text ""),
        MemFs.remove sampleState ["srv", "www", "data.xyz"])) ∧
    (requestListener (posix sampleTypes sampleRoot) memFs
        { method := "DELETE", url := "/notes", body := [] } sampleState =
      (finished 204 (some "text/plain") (Sent.text ""),
        MemFs.remove sampleState ["srv", "www", "notes"]) ∧
     requestListener (posix sampleTypes sampleRoot) memFs
        { method := "DELETE", url := "/notes", body := [] }
        (MemFs.remove sampleState ["srv", "www", "notes"]) =
      (finished 204 (some "text/plain") (Sent.text ""),
        MemFs.remove sampleState ["srv", "www", "notes"])) :=
  ⟨(DELETE_idempotent MemFs.State (posix sampleTypes sampleRoot) memFs memFs_lawful
      { method := "DELETE", url := "/missing.txt", body := [] } sampleState
      "/srv/www/missing.txt" (by decide) (by decide)).1
      (MemFs.sysError "ENOENT" "no such file or directory" "stat" "/srv/www/missing.txt")
      (by decide) (by decide),
   (DELETE_idempotent MemFs.State (posix sampleTypes sampleRoot) memFs memFs_lawful
      { method := "DELETE", url := "/data.xyz", body := [] } sampleState
      "/srv/www/data.xyz" (by decide) (by decide)).2
      { isDirectory := false } (MemFs.remove sampleState ["srv", "www", "data.xyz"])
      (by decide) (by decide),
   (DELETE_idempotent MemFs.State (posix sampleTypes sampleRoot) memFs memFs_lawful
      { method := "DELETE", url := "/notes", body := [] } sampleState
      "/srv/www/notes" (by decide) (by decide)).2
      { isDirectory := true } (MemFs.remove sampleState ["srv", "www", "notes"])
      (by decide) (by decide)⟩

/-- C6: a request whose method is none of OPTIONS, GET, PUT, DELETE and MKCOL
finds no property in `methods`, so the handler is `notAllowed`, which resolves
with status 405 and body `Method M not allowed.`; whatever the URL, the platform
and the filesystem, the answer is 405 with `Content-Type: text/plain` and that
body, and the filesystem is left as it was. -/
theorem unregistered_method_not_allowed (σ : Type) (P : Platform) (fs : Fs σ)
    (request : Request) (s : σ)
    (hm : request.method ∉ ["OPTIONS", "GET", "PUT", "DELETE", "MKCOL"]) :
    methods P fs request.method = none ∧
    (methods P fs request.method).getD notAllowed = notAllowed ∧
    notAllowed request s =
      (Except.ok { status := some 405,
                   body := some (Body.text ("Method " ++ request.method ++ " not allowed.")) }, s) ∧
    requestListener P fs request s =
      (finished 405 (some "text/plain")
        (Sent.text ("Method " ++ request.method ++ " not allowed.")), s) := by
  simp only [List.mem_cons, List.mem_singleton, List.not_mem_nil, or_false, not_or] at hm
  obtain ⟨h1, h2, h3, h4, h5⟩ := hm
  have hnone : methods P fs request.method = none := by
    simp [methods, h2, h3, h4, h5]
  refine ⟨hnone, by rw [hnone]; rfl, rfl, ?_⟩
  rw [requestListener_handler P fs request s h1, hnone]
  simp only [Option.getD_none, notAllowed, settle]
  rw [writeOutcome_text]
  rfl

/-- C6 at PATCH and at the names `constructor`, `toString` and `__proto__`. -/
theorem unregistered_method_not_allowed_witness :
    requestListener (posix sampleTypes sampleRoot) memFs
        { method := "PATCH", url := "/notes", body := [] } sampleState =
      (finished 405 (some "text/plain") (Sent.text "Method PATCH not allowed."), sampleState) ∧
    methods (posix sampleTypes sampleRoot) memFs "constructor" = none ∧
    methods (posix sampleTypes sampleRoot) memFs "toString" = none ∧
    methods (posix sampleTypes sampleRoot) memFs "__proto__" = none :=
  ⟨(unregistered_method_not_allowed MemFs.State (posix sampleTypes sampleRoot) memFs
      { method := "PATCH", url := "/notes", body := [] } sampleState (by decide)).2.2.2,
   (unregistered_method_not_allowed MemFs.State (posix sampleTypes sampleRoot) memFs
      { method := "constructor", url := "/../x", body := [] } sampleState (by decide)).1,
   (unregistered_method_not_allowed MemFs.State (posix sampleTypes sampleRoot) memFs
      { method := "toString", url := "/%zz", body := [] } sampleState (by decide)).1,
   (unregistered_method_not_allowed MemFs.State (posix sampleTypes sampleRoot) memFs
      { method := "__proto__", url := "/", body := [] } sampleState (by decide)).1⟩

/-- C7, the claim refuted: an `Error` of message `boom` that carries no status is
recovered into the body `Error: boom`, which is not the message. -/
theorem recover_body_not_message :
    recover (Thrown.error { name := "Error", message := "boom", code := none }) =
      { status := some 500, body := some (Body.text "Error: boom") } ∧
    recover (Thrown.error { name := "Error", message := "boom", code := none }) ≠
      { status := some 500, body := some (Body.text "boom") } := by
  decide

/-- C7 as amended: the recovery step maps every rejection to one outcome.  A
rejection that carries a status is the thrown object itself, passed through
unchanged, so the 403 object of the resolver is answered 403 `Forbidden` with
`Content-Type: text/plain`; a rejection without a status becomes status 500 with
body `String(error)`. -/
theorem recover_outcome (σ : Type) (fs : Fs σ) (s : σ) (t : Thrown) :
    (∀ status, t.status = some status → t = Thrown.object (recover t)) ∧
    (t.status = none → recover t = { status := some 500, body := some (Body.text t.toStr) }) ∧
    writeOutcome fs corsResponse (recover forbidden) s =
      finished 403 (some "text/plain") (Sent.text "Forbidden") := by
  refine ⟨?_, ?_, ?_⟩
  · intro status hst
    cases t with
    | object o =>
      have ho : o.status = some status := hst
      simp [recover, ho]
    | error e => cases hst
  · intro hst
    cases t with
    | object o =>
      have ho : o.status = none := hst
      simp [recover, ho]
    | error e => rfl
  · simp only [forbidden, recover]
    rw [if_pos (by decide), writeOutcome_text]
    rfl

/-- C8: a request of method OPTIONS is answered, whatever its URL and body, and
whatever the platform and the filesystem do, with status 200, an empty body and
exactly the three headers `Access-Control-Allow-Origin`, `-Allow-Methods` and
`-Allow-Headers`, each `*`; the answer does not depend on the resolver or on any
handler, and the filesystem is left as it was. -/
theorem OPTIONS_short_circuit (σ : Type) (P : Platform) (fs : Fs σ) (url : String)
    (body : Bytes) (s : σ) :
    requestListener P fs { method := "OPTIONS", url := url, body := body } s =
      ({ statusCode := 200,
         headers := [("Access-Control-Allow-Origin", some "*"),
                     ("Access-Control-Allow-Methods", some "*"),
                     ("Access-Control-Allow-Headers", some "*")],
         body := some (Sent.text "") }, s) :=
  requestListener_options P fs { method := "OPTIONS", url := url, body := body } s rfl

theorem getType_no_extension (types : String → Option String) :
    Posix.getType types "/srv/www/README" = none := by
  unfold Posix.getType
  simp only
  rw [if_neg (by decide)]

theorem urlPath_README (types : String → Option String) :
    urlPath (posix types sampleRoot) "/README" = Except.ok "/srv/www/README" :=
  (rfl : urlPath (posix sampleTypes sampleRoot) "/README" = urlPath (posix types sampleRoot) "/README").symm.trans
    (by decide)

theorem GET_regular_file {σ : Type} (P : Platform) (fs : Fs σ) (request : Request) (s : σ)
    (path : String) (stats : Stats) (b : Bytes)
    (hm : request.method = "GET")
    (hpath : urlPath P request.url = Except.ok path)
    (hstat : fs.stat path s = Except.ok stats) (hfile : stats.isDirectory = false)
    (hread : fs.readStream path s = Except.ok b) :
    GET P fs request s =
      (Except.ok { body := some (Body.stream path),
                   type := match P.getType path with
                           | none => JsOpt.null
                           | some t => JsOpt.value t }, s) ∧
    requestListener P fs request s = (finished 200 (P.getType path) (Sent.bytes b), s) := by
  have hopt : request.method ≠ "OPTIONS" := by
    rw [hm]
    decide
  have hget : GET P fs request s =
      (Except.ok { body := some (Body.stream path),
                   type := match P.getType path with
                           | none => JsOpt.null
                           | some t => JsOpt.value t }, s) := by
    simp [GET, hpath, hstat, hfile]
  refine ⟨hget, ?_⟩
  rw [requestListener_handler P fs request s hopt, hm]
  simp only [methods_GET, Option.getD_some]
  rw [hget]
  simp only [settle]
  rw [writeOutcome_stream fs s none path _ b hread, typeOrDefault_getType]
  rfl

/-- C10, the code at the failing input: `README` is a regular file in the root
and its name has no extension, so `mime.getType` answers `null` whatever table
the package holds; the GET resolves with `type: null`, the default of the
`.then` callback does not apply, and the head is written with `Content-Type`
set to `null`, not to `text/plain`. -/
theorem GET_no_extension_type_null (types : String → Option String) :
    (posix types sampleRoot).getType "/srv/www/README" = none ∧
    GET (posix types sampleRoot) memFs
        { method := "GET", url := "/README", body := [] } readmeState =
      (Except.ok { body := some (Body.stream "/srv/www/README"), type := JsOpt.null },
        readmeState) ∧
    requestListener (posix types sampleRoot) memFs
        { method := "GET", url := "/README", body := [] } readmeState =
      (finished 200 none (Sent.bytes [104, 105]), readmeState) ∧
    (finished 200 none (Sent.bytes [104, 105])).getHeader "Content-Type" = some none ∧
    (finished 200 none (Sent.bytes [104, 105])).getHeader "Content-Type" ≠
      some (some "text/plain") := by
  have ht : (posix types sampleRoot).getType "/srv/www/README" = none :=
    getType_no_extension types
  have h := GET_regular_file (posix types sampleRoot) memFs
    { method := "GET", url := "/README", body := [] } readmeState "/srv/www/README"
    { isDirectory := false } [104, 105] rfl (urlPath_README types) (by decide) rfl (by decide)
  rw [ht] at h
  exact ⟨ht, h.1, h.2, by decide, by decide⟩

end FileServer
